import Mathlib

/-
  Verification of the fiszki flashcard application.

  Shallow embedding of:
  - the progress reconciler of src/app/api/auth/session/route.js
    (updateSetsForAnswer, computeSessionDeltas, migrateFlashcardIds and the
    flashcard-update block of the POST handler),
  - the client delta pipeline of handleCompleteSession,
  - the spaced-repetition scheduler and review-queue selection of
    src/app/lib/storage.js (calculateSpacedRepetition, updateCardProgress,
    getCardsForReview),
  - the per-study-set session statistics update of the POST handler.

  JavaScript Sets are modelled as duplicate-free insertion-ordered lists:
  Set.add appends when absent, Set.delete filters, and new Set(array)
  deduplicates.  Numbers are modelled as rationals (the numeric programs in
  question only add, multiply, divide, compare, clamp and round).
  Timestamps are rationals (milliseconds / days since the epoch).
-/

/-- Card identifiers are strings (content-derived or legacy). -/
abbrev CardId := String

/-- JavaScript Set.add: appends the element when it is not yet present. -/
def setAdd (s : List CardId) (x : CardId) : List CardId :=
  if x ∈ s then s else s ++ [x]

/-- JavaScript Set.delete: removes the element. -/
def setDelete (s : List CardId) (x : CardId) : List CardId :=
  s.filter (fun y => y != x)

/-- The delta object carried in flashcardUpdates (route.js / part_002). -/
structure ProgressDelta where
  knownAdd : List CardId
  knownRemove : List CardId
  unknownAdd : List CardId
  unknownRemove : List CardId

/-- updateSetsForAnswer from src/app/api/auth/session/route.js (lines 355-395):
clones the previous arrays into Sets, then processes knownAdd (adding to the
known set and deleting from the unknown set), knownRemove, unknownAdd (adding
to the unknown set and deleting from the known set), and unknownRemove, in
this order. -/
def updateSetsForAnswer (knownCards unknownCards : List CardId)
    (flashcardUpdates : ProgressDelta) : List CardId × List CardId :=
  let s0 : List CardId × List CardId := (knownCards.dedup, unknownCards.dedup)
  let s1 := flashcardUpdates.knownAdd.foldl
    (fun s cardId => (setAdd s.1 cardId, setDelete s.2 cardId)) s0
  let s2 := flashcardUpdates.knownRemove.foldl
    (fun s cardId => (setDelete s.1 cardId, s.2)) s1
  let s3 := flashcardUpdates.unknownAdd.foldl
    (fun s cardId => (setDelete s.1 cardId, setAdd s.2 cardId)) s2
  let s4 := flashcardUpdates.unknownRemove.foldl
    (fun s cardId => (s.1, setDelete s.2 cardId)) s3
  s4

/-- One iteration of the sessionCardIds.forEach loop of computeSessionDeltas
(route.js lines 406-439): the four independent ifs push the card onto the
add/remove arrays according to the four membership transitions. -/
def deltaStep (previousKnown previousUnknown newKnown newUnknown : List CardId)
    (deltas : ProgressDelta) (cardId : CardId) : ProgressDelta :=
  let wasKnown := cardId ∈ previousKnown
  let wasUnknown := cardId ∈ previousUnknown
  let isNowKnown := cardId ∈ newKnown
  let isNowUnknown := cardId ∈ newUnknown
  { knownAdd := if ¬wasKnown ∧ isNowKnown then
      deltas.knownAdd ++ [cardId] else deltas.knownAdd
    knownRemove := if wasKnown ∧ ¬isNowKnown then
      deltas.knownRemove ++ [cardId] else deltas.knownRemove
    unknownAdd := if ¬wasUnknown ∧ isNowUnknown then
      deltas.unknownAdd ++ [cardId] else deltas.unknownAdd
    unknownRemove := if wasUnknown ∧ ¬isNowUnknown then
      deltas.unknownRemove ++ [cardId] else deltas.unknownRemove }

/-- computeSessionDeltas from src/app/api/auth/session/route.js: deltas are
restricted to sessionCardIds, and record the membership transitions between
the previous and the new known/unknown sets. -/
def computeSessionDeltas (previousKnown previousUnknown newKnown newUnknown
    sessionCardIds : List CardId) : ProgressDelta :=
  sessionCardIds.foldl
    (deltaStep previousKnown previousUnknown newKnown newUnknown)
    ⟨[], [], [], []⟩


/-- The session classification loop of handleCompleteSession (part_002,
step B): for every session question, a card answered "known" (true) is added
to the known set and deleted from the unknown set, and a card answered
"unknown" (false) is added to the unknown set and deleted from the known
set. -/
def applyClassification (known unknown : List CardId)
    (cls : List (CardId × Bool)) : List CardId × List CardId :=
  cls.foldl (fun s q =>
    if q.2 then (setAdd s.1 q.1, setDelete s.2 q.1)
    else (setDelete s.1 q.1, setAdd s.2 q.1)) (known, unknown)

/-- The delta round trip of a completed session: the client builds the new
sets from the session classification (handleCompleteSession step B), computes
the per-session deltas (step C, the same algorithm as computeSessionDeltas),
and the server applies them to the persisted sets with
updateSetsForAnswer. -/
def reconcile (known unknown : List CardId) (cls : List (CardId × Bool)) :
    List CardId × List CardId :=
  let nw := applyClassification known unknown cls
  updateSetsForAnswer known unknown
    (computeSessionDeltas known unknown nw.1 nw.2 (cls.map Prod.fst))

/-- Repeated application of updateSetsForAnswer to a starting pair of
known/unknown collections. -/
def applyDeltas (start : List CardId × List CardId)
    (ds : List ProgressDelta) : List CardId × List CardId :=
  ds.foldl (fun s d => updateSetsForAnswer s.1 s.2 d) start

def isLowerAlpha (c : Char) : Bool := 'a' ≤ c && c ≤ 'z'

def isDigitChar (c : Char) : Bool := '0' ≤ c && c ≤ '9'

/-- One anchored attempt of the regex /[a-z]{3,}\d+[a-z]+/ at the head of the
list. The three blocks use pairwise disjoint character classes, so a
backtracking match starting here exists exactly when the maximal lowercase
run has length at least 3, is followed by at least one digit, and the
maximal digit run is followed by a lowercase letter. -/
def legacyPatternAt (s : List Char) : Bool :=
  let p1 := s.span isLowerAlpha
  let p2 := p1.2.span isDigitChar
  decide (3 ≤ p1.1.length) && decide (1 ≤ p2.1.length) &&
    (match p2.2 with
     | c :: _ => isLowerAlpha c
     | [] => false)

/-- Unanchored regex search: some suffix matches. -/
def hasLegacyPattern (s : List Char) : Bool := s.tails.any legacyPatternAt

/-- The hasOldIds heuristic of the POST handler (route.js lines 565-567):
id.length > 10 && id.includes('m') && id.match(/[a-z]{3,}\d+[a-z]+/). -/
def isLegacyId (cardId : CardId) : Bool :=
  decide (10 < cardId.length) && cardId.toList.any (fun c => c == 'm') &&
    hasLegacyPattern cardId.toList

structure MigrationResult where
  knownCards : List CardId
  unknownCards : List CardId
  migrated : Bool
  flashcardCount : ℕ

/-- migrateFlashcardIds (route.js lines 302-346). The CSV file read is
modelled by csv : Option String, none standing for a failed read (the only
fallible step in the try block). On a successful read the CSV is parsed and
both collections are cleared with migrated = true; the catch branch returns
empty collections with migrated = false. The content ids of the parsed
flashcards are used by no caller and are not modelled (generateContentId is
not among the sources). -/
def migrateFlashcardIds (csv : Option String)
    (oldKnownCards oldUnknownCards : List CardId) : MigrationResult :=
  match csv with
  | some csvContent =>
    let lines := (csvContent.splitOn "\n").filter (fun l => l.trim ≠ "")
    let flashcards := lines.filterMap (fun line =>
      let parts := line.splitOn "(;)"
      if parts.length = 2 then
        some ((parts.getD 0 "").trim, (parts.getD 1 "").trim)
      else none)
    { knownCards := [], unknownCards := [], migrated := true,
      flashcardCount := flashcards.length }
  | none =>
    { knownCards := [], unknownCards := [], migrated := false,
      flashcardCount := 0 }

/-- JavaScript values that can sit in a persisted knownCards/unknownCards
field: null, numbers, strings, arrays of ids, and plain objects. -/
inductive JSVal where
  | null
  | num (n : ℚ)
  | str (s : String)
  | arr (elements : List CardId)
  | obj

/-- JavaScript truthiness of the modelled values: null, 0 and the empty
string are falsy; every array and object is truthy. -/
def jsTruthy : JSVal → Bool
  | JSVal.null => false
  | JSVal.num n => decide (n ≠ 0)
  | JSVal.str s => decide (s ≠ "")
  | JSVal.arr _ => true
  | JSVal.obj => true

/-- The fallback (flashcardProgress.knownCards || []) of the POST handler. -/
def readStoredCards (v : JSVal) : JSVal :=
  if jsTruthy v then v else JSVal.arr []

/-- Spreading a JavaScript value into an array literal ([...v]): arrays
yield their elements, strings yield their characters, and any other value
throws a TypeError (modelled as Except.error). new Set(v) iterates the same
way, so the same lists feed updateSetsForAnswer. -/
def spreadIds : JSVal → Except Unit (List CardId)
  | JSVal.arr elements => Except.ok elements
  | JSVal.str s => Except.ok (s.toList.map (fun c => Char.toString c))
  | JSVal.null => Except.error ()
  | JSVal.num _ => Except.error ()
  | JSVal.obj => Except.error ()

/-- The flashcard-update block of the POST handler (route.js lines 558-586):
coerces the stored collections with || [], spreads them to evaluate the
hasOldIds heuristic, migrates when old ids were detected (keeping the old
collections when migrated is false), and applies the session delta with
updateSetsForAnswer. Except.error models a thrown TypeError, which the
surrounding try/catch turns into a 500 Internal server error response. -/
def processFlashcardUpdates (known unknown : JSVal) (csv : Option String)
    (flashcardUpdates : ProgressDelta) :
    Except Unit (List CardId × List CardId) :=
  let knownCards := readStoredCards known
  let unknownCards := readStoredCards unknown
  match spreadIds knownCards, spreadIds unknownCards with
  | Except.ok kIds, Except.ok uIds =>
    let hasOldIds := (kIds ++ uIds).any isLegacyId
    if hasOldIds then
      let migrationResult := migrateFlashcardIds csv kIds uIds
      if migrationResult.migrated then
        Except.ok (updateSetsForAnswer migrationResult.knownCards
          migrationResult.unknownCards flashcardUpdates)
      else
        Except.ok (updateSetsForAnswer kIds uIds flashcardUpdates)
    else
      Except.ok (updateSetsForAnswer kIds uIds flashcardUpdates)
  | Except.error e, _ => Except.error e
  | _, Except.error e => Except.error e

/-- The slice of card state consumed and produced by the scheduler. -/
structure SpacedRepState where
  easeFactor : ℚ
  interval : ℚ

/-- calculateSpacedRepetition from src/app/lib/storage.js (lines 379-410),
the modified SM-2 step. Math.round is the round of rationals (round half
away from zero towards positive infinity, as in JavaScript). -/
def calculateSpacedRepetition (cardProgress : SpacedRepState)
    (isCorrect : Bool) (responseTime : ℚ) : SpacedRepState :=
  let easeFactor := cardProgress.easeFactor
  let interval := cardProgress.interval
  let result : ℚ × ℚ :=
    if isCorrect then
      let interval1 : ℚ :=
        if interval = 1 then 6
        else ((round (interval * easeFactor) : ℤ) : ℚ)
      let responseQuality : ℚ :=
        if 0 < responseTime then max 0 (min 5 (5 - responseTime / 5)) else 3
      let easeFactor1 := easeFactor +
        (0.1 - (5 - responseQuality) * (0.08 + (5 - responseQuality) * 0.02))
      (easeFactor1, interval1)
    else
      (max 1.3 (easeFactor - 0.2), (1 : ℚ))
  { easeFactor := max 1.3 (min 2.5 result.1), interval := result.2 }

/-- The response quality used by the scheduler on a correct answer:
clamp(5 - responseTime/5, 0, 5) when a response time is available
(responseTime > 0), default quality 3 otherwise. -/
def responseQuality (responseTime : ℚ) : ℚ :=
  if 0 < responseTime then max 0 (min 5 (5 - responseTime / 5)) else 3

/-- The per-card progress record of flashcardStorage (storage.js lines
236-249). Timestamps are rationals; the interval is in days. -/
structure CardState where
  timesReviewed : ℕ
  timesCorrect : ℕ
  difficulty : ℚ
  lastReviewed : Option ℚ
  nextReview : Option ℚ
  consecutiveCorrect : ℕ
  consecutiveIncorrect : ℕ
  easeFactor : ℚ
  interval : ℚ

/-- The default record returned by getCardProgress for an unseen card. -/
def defaultCardState : CardState where
  timesReviewed := 0
  timesCorrect := 0
  difficulty := 0.5
  lastReviewed := none
  nextReview := none
  consecutiveCorrect := 0
  consecutiveIncorrect := 0
  easeFactor := 2.5
  interval := 1

/-- updateCardProgress from src/app/lib/storage.js (lines 252-309), acting on
one card record: bump the counters, adjust the difficulty, run the scheduler
and set the next review date (now + interval days, in days). -/
def updateCardProgress (currentProgress : CardState) (isCorrect : Bool)
    (responseTime : ℚ) (now : ℚ) : CardState :=
  let st1 := { currentProgress with
    timesReviewed := currentProgress.timesReviewed + 1
    lastReviewed := some now }
  let st2 :=
    if isCorrect then
      let st := { st1 with
        timesCorrect := st1.timesCorrect + 1
        consecutiveCorrect := st1.consecutiveCorrect + 1
        consecutiveIncorrect := 0 }
      if 3 ≤ st.consecutiveCorrect then
        { st with difficulty := max 0 (st.difficulty - 0.1) }
      else st
    else
      { st1 with
        consecutiveCorrect := 0
        consecutiveIncorrect := st1.consecutiveIncorrect + 1
        difficulty := min 1 (st1.difficulty + 0.2) }
  let scheduleResult :=
    calculateSpacedRepetition ⟨st2.easeFactor, st2.interval⟩ isCorrect
      responseTime
  { st2 with
    easeFactor := scheduleResult.easeFactor
    interval := scheduleResult.interval
    nextReview := some (now + scheduleResult.interval) }

/-- A finite sequence of reviews (isCorrect, responseTime, now) applied to
the default card state. -/
def runReviews (reviews : List (Bool × ℚ × ℚ)) : CardState :=
  reviews.foldl (fun st r => updateCardProgress st r.1 r.2.1 r.2.2)
    defaultCardState

/-- The CardScheduleState validity predicate of the specification. -/
def ValidCardState (st : CardState) : Prop :=
  1.3 ≤ st.easeFactor ∧ st.easeFactor ≤ 2.5 ∧ 1 ≤ st.interval ∧
    0 ≤ st.difficulty ∧ st.difficulty ≤ 1 ∧
    (0 < st.consecutiveCorrect → st.consecutiveIncorrect = 0) ∧
    (0 < st.consecutiveIncorrect → st.consecutiveCorrect = 0)

/-- Strengthened invariant used to prove ValidCardState: additionally the
interval is an integer (1, 6, or a Math.round result). -/
def CardStateInv (st : CardState) : Prop :=
  ValidCardState st ∧ ∃ n : ℤ, st.interval = (n : ℚ)

/-- Per-study-set statistics (route.js lines 499-540). -/
structure UserStudySetStats where
  totalSessions : ℕ
  lastScore : Option ℚ
  bestScore : ℚ
  averageScore : ℚ
  totalTimeSpent : ℚ
  lastAttempt : Option ℚ

/-- The session statistics update block of the POST handler (route.js lines
517-540), the recordSession contract of the specification: bump
totalSessions, keep the best score, recompute the incremental average with
Math.round, accumulate the time spent and stamp the attempt time. -/
def recordSession (stats : UserStudySetStats) (score totalTime : ℚ)
    (now : ℚ) : UserStudySetStats :=
  let previousSessions := stats.totalSessions
  let previousAverage := stats.averageScore
  let newTotalSessions := stats.totalSessions + 1
  { totalSessions := newTotalSessions
    lastScore := some score
    bestScore := max stats.bestScore score
    averageScore := ((round ((previousAverage * (previousSessions : ℚ) + score)
      / (newTotalSessions : ℚ)) : ℤ) : ℚ)
    totalTimeSpent := stats.totalTimeSpent + totalTime
    lastAttempt := some now }

/-- The due filter of getCardsForReview (storage.js lines 316-319): cards
never scheduled (nextReview null) or due (nextReview ≤ now). -/
def isDue (now : ℚ) (progress : CardState) : Bool :=
  match progress.nextReview with
  | none => true
  | some t => decide (t ≤ now)

/-- A null lastReviewed is keyed as the epoch (new Date(0)). -/
def lastReviewedKey (progress : CardState) : ℚ :=
  progress.lastReviewed.getD 0

/-- The comparator of getCardsForReview as a total preorder: a may precede b
when the comparator value is not positive, i.e. harder cards first, ties
broken by older (smaller) lastReviewed first. -/
def reviewLE (a b : CardId × CardState) : Bool :=
  if a.2.difficulty = b.2.difficulty then
    decide (lastReviewedKey a.2 ≤ lastReviewedKey b.2)
  else decide (b.2.difficulty < a.2.difficulty)

/-- The propositional form of the review ordering: descending difficulty,
then ascending lastReviewed (null keyed as the epoch). -/
def reviewOrd (a b : CardId × CardState) : Prop :=
  b.2.difficulty < a.2.difficulty ∨
    (a.2.difficulty = b.2.difficulty ∧
      lastReviewedKey a.2 ≤ lastReviewedKey b.2)

/-- The entries of the study set that pass the due filter. -/
def dueEntries (ps : List (CardId × CardState)) (now : ℚ) :
    List (CardId × CardState) :=
  ps.filter (fun e => isDue now e.2)

/-- Truthiness of the limit argument (null or a number). -/
def jsTruthyLimit : Option ℕ → Bool
  | none => false
  | some n => decide (n ≠ 0)

/-- getCardsForReview from src/app/lib/storage.js (lines 311-337): filter the
due cards, sort with the comparator (JavaScript sort is a stable sort
consistent with the comparator, modelled by mergeSort), project to ids, and
slice when the limit is truthy. -/
def getCardsForReview (ps : List (CardId × CardState)) (now : ℚ)
    (limit : Option ℕ) : List CardId :=
  let cardsForReview := ((dueEntries ps now).mergeSort reviewLE).map Prod.fst
  if jsTruthyLimit limit then cardsForReview.take (limit.getD 0)
  else cardsForReview

/-- Disjointness of two id collections. -/
abbrev DisjointIds (a b : List CardId) : Prop := ∀ x, x ∈ a → x ∉ b

@[simp] lemma mem_setAdd (s : List CardId) (a x : CardId) :
    x ∈ setAdd s a ↔ x ∈ s ∨ x = a := by
  unfold setAdd
  by_cases h : a ∈ s
  · simp only [if_pos h]
    constructor
    · exact Or.inl
    · rintro (hx | rfl)
      · exact hx
      · exact h
  · simp [if_neg h]

@[simp] lemma mem_setDelete (s : List CardId) (a x : CardId) :
    x ∈ setDelete s a ↔ x ∈ s ∧ x ≠ a := by
  simp [setDelete, List.mem_filter]

lemma mem_foldl_knownAddPhase (l : List CardId) :
    ∀ (s : List CardId × List CardId) (x : CardId),
      (x ∈ (l.foldl (fun s c => (setAdd s.1 c, setDelete s.2 c)) s).1 ↔
        x ∈ s.1 ∨ x ∈ l) ∧
      (x ∈ (l.foldl (fun s c => (setAdd s.1 c, setDelete s.2 c)) s).2 ↔
        x ∈ s.2 ∧ x ∉ l) := by
  induction l with
  | nil => simp
  | cons a t ih =>
    intro s x
    simp only [List.foldl_cons]
    refine ⟨((ih _ x).1).trans ?_, ((ih _ x).2).trans ?_⟩
    · simp only [mem_setAdd, List.mem_cons]
      tauto
    · simp only [mem_setDelete, List.mem_cons]
      tauto

lemma mem_foldl_knownRemovePhase (l : List CardId) :
    ∀ (s : List CardId × List CardId) (x : CardId),
      (x ∈ (l.foldl (fun s c => (setDelete s.1 c, s.2)) s).1 ↔
        x ∈ s.1 ∧ x ∉ l) ∧
      (x ∈ (l.foldl (fun s c => (setDelete s.1 c, s.2)) s).2 ↔ x ∈ s.2) := by
  induction l with
  | nil => simp
  | cons a t ih =>
    intro s x
    simp only [List.foldl_cons]
    refine ⟨((ih _ x).1).trans ?_, ((ih _ x).2).trans ?_⟩
    · simp only [mem_setDelete, List.mem_cons]
      tauto
    · exact Iff.rfl

lemma mem_foldl_unknownAddPhase (l : List CardId) :
    ∀ (s : List CardId × List CardId) (x : CardId),
      (x ∈ (l.foldl (fun s c => (setDelete s.1 c, setAdd s.2 c)) s).1 ↔
        x ∈ s.1 ∧ x ∉ l) ∧
      (x ∈ (l.foldl (fun s c => (setDelete s.1 c, setAdd s.2 c)) s).2 ↔
        x ∈ s.2 ∨ x ∈ l) := by
  induction l with
  | nil => simp
  | cons a t ih =>
    intro s x
    simp only [List.foldl_cons]
    refine ⟨((ih _ x).1).trans ?_, ((ih _ x).2).trans ?_⟩
    · simp only [mem_setDelete, List.mem_cons]
      tauto
    · simp only [mem_setAdd, List.mem_cons]
      tauto

lemma mem_foldl_unknownRemovePhase (l : List CardId) :
    ∀ (s : List CardId × List CardId) (x : CardId),
      (x ∈ (l.foldl (fun s c => (s.1, setDelete s.2 c)) s).1 ↔ x ∈ s.1) ∧
      (x ∈ (l.foldl (fun s c => (s.1, setDelete s.2 c)) s).2 ↔
        x ∈ s.2 ∧ x ∉ l) := by
  induction l with
  | nil => simp
  | cons a t ih =>
    intro s x
    simp only [List.foldl_cons]
    refine ⟨((ih _ x).1).trans ?_, ((ih _ x).2).trans ?_⟩
    · exact Iff.rfl
    · simp only [mem_setDelete, List.mem_cons]
      tauto

/-- Membership characterisation of updateSetsForAnswer: the known result holds
exactly the prior known cards plus knownAdd, minus knownRemove and unknownAdd;
the unknown result holds the prior unknown cards minus knownAdd, plus
unknownAdd, minus unknownRemove. -/
lemma mem_updateSetsForAnswer (K U : List CardId) (d : ProgressDelta)
    (x : CardId) :
    (x ∈ (updateSetsForAnswer K U d).1 ↔
      (x ∈ K ∨ x ∈ d.knownAdd) ∧ x ∉ d.knownRemove ∧ x ∉ d.unknownAdd) ∧
    (x ∈ (updateSetsForAnswer K U d).2 ↔
      ((x ∈ U ∧ x ∉ d.knownAdd) ∨ x ∈ d.unknownAdd) ∧
        x ∉ d.unknownRemove) := by
  unfold updateSetsForAnswer
  simp only
  constructor
  · rw [(mem_foldl_unknownRemovePhase _ _ x).1,
      (mem_foldl_unknownAddPhase _ _ x).1,
      (mem_foldl_knownRemovePhase _ _ x).1,
      (mem_foldl_knownAddPhase _ _ x).1, List.mem_dedup]
    tauto
  · rw [(mem_foldl_unknownRemovePhase _ _ x).2,
      (mem_foldl_unknownAddPhase _ _ x).2,
      (mem_foldl_knownRemovePhase _ _ x).2,
      (mem_foldl_knownAddPhase _ _ x).2, List.mem_dedup]


lemma deltaStep_knownAdd (pk pu nk nu : List CardId) (d : ProgressDelta)
    (c : CardId) :
    (deltaStep pk pu nk nu d c).knownAdd =
      if c ∉ pk ∧ c ∈ nk then d.knownAdd ++ [c] else d.knownAdd := rfl

lemma deltaStep_knownRemove (pk pu nk nu : List CardId) (d : ProgressDelta)
    (c : CardId) :
    (deltaStep pk pu nk nu d c).knownRemove =
      if c ∈ pk ∧ c ∉ nk then d.knownRemove ++ [c] else d.knownRemove := rfl

lemma deltaStep_unknownAdd (pk pu nk nu : List CardId) (d : ProgressDelta)
    (c : CardId) :
    (deltaStep pk pu nk nu d c).unknownAdd =
      if c ∉ pu ∧ c ∈ nu then d.unknownAdd ++ [c] else d.unknownAdd := rfl

lemma deltaStep_unknownRemove (pk pu nk nu : List CardId) (d : ProgressDelta)
    (c : CardId) :
    (deltaStep pk pu nk nu d c).unknownRemove =
      if c ∈ pu ∧ c ∉ nu then d.unknownRemove ++ [c] else d.unknownRemove := rfl

lemma mem_computeSessionDeltas (pk pu nk nu ids : List CardId) (x : CardId) :
    (x ∈ (computeSessionDeltas pk pu nk nu ids).knownAdd ↔
      x ∈ ids ∧ x ∉ pk ∧ x ∈ nk) ∧
    (x ∈ (computeSessionDeltas pk pu nk nu ids).knownRemove ↔
      x ∈ ids ∧ x ∈ pk ∧ x ∉ nk) ∧
    (x ∈ (computeSessionDeltas pk pu nk nu ids).unknownAdd ↔
      x ∈ ids ∧ x ∉ pu ∧ x ∈ nu) ∧
    (x ∈ (computeSessionDeltas pk pu nk nu ids).unknownRemove ↔
      x ∈ ids ∧ x ∈ pu ∧ x ∉ nu) := by
  have main : ∀ (l : List CardId) (d : ProgressDelta),
      (x ∈ (l.foldl (deltaStep pk pu nk nu) d).knownAdd ↔
        x ∈ d.knownAdd ∨ (x ∈ l ∧ x ∉ pk ∧ x ∈ nk)) ∧
      (x ∈ (l.foldl (deltaStep pk pu nk nu) d).knownRemove ↔
        x ∈ d.knownRemove ∨ (x ∈ l ∧ x ∈ pk ∧ x ∉ nk)) ∧
      (x ∈ (l.foldl (deltaStep pk pu nk nu) d).unknownAdd ↔
        x ∈ d.unknownAdd ∨ (x ∈ l ∧ x ∉ pu ∧ x ∈ nu)) ∧
      (x ∈ (l.foldl (deltaStep pk pu nk nu) d).unknownRemove ↔
        x ∈ d.unknownRemove ∨ (x ∈ l ∧ x ∈ pu ∧ x ∉ nu)) := by
    intro l
    induction l with
    | nil => simp
    | cons a t ih =>
      intro d
      simp only [List.foldl_cons]
      obtain ⟨ka, kr, ua, ur⟩ := ih (deltaStep pk pu nk nu d a)
      refine ⟨ka.trans ?_, kr.trans ?_, ua.trans ?_, ur.trans ?_⟩ <;>
        clear ka kr ua ur
      · rw [deltaStep_knownAdd]
        by_cases hx : x = a
        · subst hx
          split <;> rename_i h <;>
            simp only [List.mem_append, List.mem_singleton, List.mem_cons] <;>
            tauto
        · split <;> rename_i h <;>
            simp only [List.mem_append, List.mem_singleton, List.mem_cons] <;>
            tauto
      · rw [deltaStep_knownRemove]
        by_cases hx : x = a
        · subst hx
          split <;> rename_i h <;>
            simp only [List.mem_append, List.mem_singleton, List.mem_cons] <;>
            tauto
        · split <;> rename_i h <;>
            simp only [List.mem_append, List.mem_singleton, List.mem_cons] <;>
            tauto
      · rw [deltaStep_unknownAdd]
        by_cases hx : x = a
        · subst hx
          split <;> rename_i h <;>
            simp only [List.mem_append, List.mem_singleton, List.mem_cons] <;>
            tauto
        · split <;> rename_i h <;>
            simp only [List.mem_append, List.mem_singleton, List.mem_cons] <;>
            tauto
      · rw [deltaStep_unknownRemove]
        by_cases hx : x = a
        · subst hx
          split <;> rename_i h <;>
            simp only [List.mem_append, List.mem_singleton, List.mem_cons] <;>
            tauto
        · split <;> rename_i h <;>
            simp only [List.mem_append, List.mem_singleton, List.mem_cons] <;>
            tauto
  have h := main ids ⟨[], [], [], []⟩
  simpa [computeSessionDeltas] using h

lemma pair_mem_keys {l : List (CardId × Bool)} {x : CardId} {b : Bool}
    (h : (x, b) ∈ l) : x ∈ l.map Prod.fst :=
  List.mem_map_of_mem Prod.fst h

lemma applyClassification_mem (cls : List (CardId × Bool)) :
    ∀ (K U : List CardId), (cls.map Prod.fst).Nodup → ∀ x : CardId,
      (x ∈ (applyClassification K U cls).1 ↔
        ((x, true) ∈ cls ∨ (x ∈ K ∧ x ∉ cls.map Prod.fst))) ∧
      (x ∈ (applyClassification K U cls).2 ↔
        ((x, false) ∈ cls ∨ (x ∈ U ∧ x ∉ cls.map Prod.fst))) := by
  induction cls with
  | nil => simp [applyClassification]
  | cons q t ih =>
    intro K U h x
    obtain ⟨a, b⟩ := q
    rw [List.map_cons] at h
    obtain ⟨ha, ht⟩ := List.nodup_cons.mp h
    cases b
    case false =>
      have step : applyClassification K U ((a, false) :: t) =
          applyClassification (setDelete K a) (setAdd U a) t := by
        simp [applyClassification, List.foldl_cons]
      rw [step]
      obtain ⟨h1, h2⟩ := ih (setDelete K a) (setAdd U a) ht x
      rw [h1, h2]
      by_cases hx : x = a
      · subst hx
        have hkt : (x, true) ∉ t := fun hm => ha (pair_mem_keys hm)
        have hkf : (x, false) ∉ t := fun hm => ha (pair_mem_keys hm)
        simp [hkt, hkf, ha, Prod.mk.injEq, mem_setAdd, mem_setDelete]
      · refine ⟨?_, ?_⟩ <;>
          simp only [mem_setAdd, mem_setDelete, List.mem_cons, List.map_cons,
            Prod.mk.injEq, hx, false_and, false_or] <;>
          tauto
    case true =>
      have step : applyClassification K U ((a, true) :: t) =
          applyClassification (setAdd K a) (setDelete U a) t := by
        simp [applyClassification, List.foldl_cons]
      rw [step]
      obtain ⟨h1, h2⟩ := ih (setAdd K a) (setDelete U a) ht x
      rw [h1, h2]
      by_cases hx : x = a
      · subst hx
        have hkt : (x, true) ∉ t := fun hm => ha (pair_mem_keys hm)
        have hkf : (x, false) ∉ t := fun hm => ha (pair_mem_keys hm)
        simp [hkt, hkf, ha, Prod.mk.injEq, mem_setAdd, mem_setDelete]
      · refine ⟨?_, ?_⟩ <;>
          simp only [mem_setAdd, mem_setDelete, List.mem_cons, List.map_cons,
            Prod.mk.injEq, hx, false_and, false_or] <;>
          tauto

lemma nodup_keys_unique : ∀ (l : List (CardId × Bool)),
    (l.map Prod.fst).Nodup → ∀ (x : CardId) (b1 b2 : Bool),
    (x, b1) ∈ l → (x, b2) ∈ l → b1 = b2
  | [], _, x, b1, b2, h1, _ => absurd h1 (List.not_mem_nil _)
  | (a, c) :: t, h, x, b1, b2, h1, h2 => by
    rw [List.map_cons] at h
    obtain ⟨ha, ht⟩ := List.nodup_cons.mp h
    rcases List.mem_cons.mp h1 with he1 | ht1 <;>
      rcases List.mem_cons.mp h2 with he2 | ht2
    · injection he1 with hx1 hb1
      injection he2 with hx2 hb2
      exact hb1.trans hb2.symm
    · injection he1 with hx1 hb1
      subst hx1
      exact absurd (pair_mem_keys ht2) ha
    · injection he2 with hx2 hb2
      subst hx2
      exact absurd (pair_mem_keys ht1) ha
    · exact nodup_keys_unique t ht x b1 b2 ht1 ht2

/-- C1: Delta/Reconcile round trip. For disjoint persisted sets and a session
classification with distinct card ids, applying the delta produced by the
delta engine (the client loop of handleCompleteSession, equivalently
computeSessionDeltas) to the original sets via updateSetsForAnswer puts every
classified id in exactly the set named by its classification, and leaves the
membership of every unclassified id unchanged in both sets. -/
theorem delta_roundTrip (K U : List CardId) (cls : List (CardId × Bool))
    (hdisj : DisjointIds K U) (hnodup : (cls.map Prod.fst).Nodup) :
    (∀ p ∈ cls,
      (p.1 ∈ (reconcile K U cls).1 ↔ p.2 = true) ∧
      (p.1 ∈ (reconcile K U cls).2 ↔ p.2 = false)) ∧
    (∀ x : CardId, x ∉ cls.map Prod.fst →
      (x ∈ (reconcile K U cls).1 ↔ x ∈ K) ∧
      (x ∈ (reconcile K U cls).2 ↔ x ∈ U)) := by
  simp only [reconcile]
  constructor
  · rintro ⟨x, b⟩ hp
    have hkeys : x ∈ cls.map Prod.fst := pair_mem_keys hp
    have hdx := hdisj x
    obtain ⟨hn1, hn2⟩ := applyClassification_mem cls K U hnodup x
    obtain ⟨hu1, hu2⟩ := mem_updateSetsForAnswer K U
      (computeSessionDeltas K U (applyClassification K U cls).1
        (applyClassification K U cls).2 (cls.map Prod.fst)) x
    obtain ⟨hda, hdr, hua, hur⟩ := mem_computeSessionDeltas K U
      (applyClassification K U cls).1 (applyClassification K U cls).2
      (cls.map Prod.fst) x
    cases b
    case true =>
      have hxf : (x, false) ∉ cls := fun hf =>
        Bool.noConfusion (nodup_keys_unique cls hnodup x true false hp hf)
      constructor
      · rw [hu1, hda, hdr, hua, hn1, hn2]
        clear hu1 hu2 hda hdr hua hur hn1 hn2
        tauto
      · rw [hu2, hda, hua, hur, hn1, hn2]
        clear hu1 hu2 hda hdr hua hur hn1 hn2
        tauto
    case false =>
      have hxt : (x, true) ∉ cls := fun hf =>
        Bool.noConfusion (nodup_keys_unique cls hnodup x true false hf hp)
      constructor
      · rw [hu1, hda, hdr, hua, hn1, hn2]
        clear hu1 hu2 hda hdr hua hur hn1 hn2
        tauto
      · rw [hu2, hda, hua, hur, hn1, hn2]
        clear hu1 hu2 hda hdr hua hur hn1 hn2
        tauto
  · intro x hkeys
    have hdx := hdisj x
    obtain ⟨hn1, hn2⟩ := applyClassification_mem cls K U hnodup x
    obtain ⟨hu1, hu2⟩ := mem_updateSetsForAnswer K U
      (computeSessionDeltas K U (applyClassification K U cls).1
        (applyClassification K U cls).2 (cls.map Prod.fst)) x
    obtain ⟨hda, hdr, hua, hur⟩ := mem_computeSessionDeltas K U
      (applyClassification K U cls).1 (applyClassification K U cls).2
      (cls.map Prod.fst) x
    constructor
    · rw [hu1, hda, hdr, hua, hn1, hn2]
      clear hu1 hu2 hda hdr hua hur hn1 hn2
      tauto
    · rw [hu2, hda, hua, hur, hn1, hn2]
      clear hu1 hu2 hda hdr hua hur hn1 hn2
      tauto

theorem delta_roundTrip_witness :
    DisjointIds ["b"] ["a"] ∧
      ([("a", true), ("b", false)].map Prod.fst).Nodup ∧
      ((∀ p ∈ [("a", true), ("b", false)],
        (p.1 ∈ (reconcile ["b"] ["a"] [("a", true), ("b", false)]).1 ↔
          p.2 = true) ∧
        (p.1 ∈ (reconcile ["b"] ["a"] [("a", true), ("b", false)]).2 ↔
          p.2 = false)) ∧
      (∀ x : CardId, x ∉ [("a", true), ("b", false)].map Prod.fst →
        (x ∈ (reconcile ["b"] ["a"] [("a", true), ("b", false)]).1 ↔
          x ∈ ["b"]) ∧
        (x ∈ (reconcile ["b"] ["a"] [("a", true), ("b", false)]).2 ↔
          x ∈ ["a"]))) :=
  ⟨by decide, by decide,
    delta_roundTrip ["b"] ["a"] [("a", true), ("b", false)]
      (by decide) (by decide)⟩

/-- C2: mutual exclusivity. Starting from disjoint known/unknown collections,
any finite sequence of updateSetsForAnswer applications with arbitrary deltas
leaves the resulting known and unknown collections disjoint. -/
theorem knownUnknown_mutualExclusivity (ds : List ProgressDelta) :
    ∀ (K U : List CardId), DisjointIds K U →
      DisjointIds (applyDeltas (K, U) ds).1 (applyDeltas (K, U) ds).2 := by
  induction ds with
  | nil =>
    intro K U h
    simpa [applyDeltas] using h
  | cons d t ih =>
    intro K U h
    have hstep : DisjointIds (updateSetsForAnswer K U d).1
        (updateSetsForAnswer K U d).2 := by
      intro x hx1 hx2
      obtain ⟨hu1, hu2⟩ := mem_updateSetsForAnswer K U d x
      have hdx := h x
      tauto
    have hshift : applyDeltas (K, U) (d :: t) =
        applyDeltas ((updateSetsForAnswer K U d).1,
          (updateSetsForAnswer K U d).2) t := by
      simp [applyDeltas, List.foldl_cons]
    rw [hshift]
    exact ih _ _ hstep

theorem knownUnknown_mutualExclusivity_witness :
    DisjointIds ["a"] ["b"] ∧
      DisjointIds (applyDeltas (["a"], ["b"]) [⟨["b"], [], [], []⟩]).1
        (applyDeltas (["a"], ["b"]) [⟨["b"], [], [], []⟩]).2 :=
  ⟨by decide,
    knownUnknown_mutualExclusivity [⟨["b"], [], [], []⟩] ["a"] ["b"]
      (by decide)⟩

/-- C9: idempotence of delta application. For arbitrary collections and an
arbitrary delta (even one violating the caller contract), applying
updateSetsForAnswer twice with the same delta yields the same known and
unknown sets (same membership) as applying it once. -/
theorem updateSetsForAnswer_idempotent (K U : List CardId)
    (d : ProgressDelta) (x : CardId) :
    (x ∈ (updateSetsForAnswer (updateSetsForAnswer K U d).1
        (updateSetsForAnswer K U d).2 d).1 ↔
      x ∈ (updateSetsForAnswer K U d).1) ∧
    (x ∈ (updateSetsForAnswer (updateSetsForAnswer K U d).1
        (updateSetsForAnswer K U d).2 d).2 ↔
      x ∈ (updateSetsForAnswer K U d).2) := by
  obtain ⟨h1, h2⟩ := mem_updateSetsForAnswer K U d x
  obtain ⟨g1, g2⟩ := mem_updateSetsForAnswer (updateSetsForAnswer K U d).1
    (updateSetsForAnswer K U d).2 d x
  refine ⟨?_, ?_⟩
  · clear g2 h2
    rw [g1, h1]
    clear g1 h1
    tauto
  · clear g1 h1
    rw [g2, h2]
    clear g2 h2
    tauto

/-- C4: the scheduler step. On a correct answer the interval maps 1 to 6 and
any other interval to round(interval * easeFactor), and the ease factor is
adjusted by 0.1 - (5 - q) * (0.08 + (5 - q) * 0.02) with q = responseQuality
responseTime (the clamp of 5 - responseTime/5 to [0, 5] when a response time
is available, 3 otherwise). On an incorrect answer the interval resets to 1
and the ease factor becomes max(1.3, easeFactor - 0.2), independently of the
response time. In both branches the final ease factor is clamped to
[1.3, 2.5]. -/
theorem calculateSpacedRepetition_spec (st : SpacedRepState)
    (responseTime : ℚ) :
    ((calculateSpacedRepetition st true responseTime).interval =
      (if st.interval = 1 then (6 : ℚ)
       else ((round (st.interval * st.easeFactor) : ℤ) : ℚ))) ∧
    ((calculateSpacedRepetition st true responseTime).easeFactor =
      max 1.3 (min 2.5 (st.easeFactor +
        (0.1 - (5 - responseQuality responseTime) *
          (0.08 + (5 - responseQuality responseTime) * 0.02))))) ∧
    ((calculateSpacedRepetition st false responseTime).interval = 1) ∧
    ((calculateSpacedRepetition st false responseTime).easeFactor =
      max 1.3 (min 2.5 (max 1.3 (st.easeFactor - 0.2)))) ∧
    (∀ rt1 rt2 : ℚ, calculateSpacedRepetition st false rt1 =
      calculateSpacedRepetition st false rt2) := by
  refine ⟨rfl, ?_, rfl, rfl, fun rt1 rt2 => rfl⟩
  simp only [calculateSpacedRepetition, responseQuality, if_true]

lemma calcSR_easeFactor_bounds (st : SpacedRepState) (b : Bool) (rt : ℚ) :
    1.3 ≤ (calculateSpacedRepetition st b rt).easeFactor ∧
    (calculateSpacedRepetition st b rt).easeFactor ≤ 2.5 := by
  simp only [calculateSpacedRepetition]
  exact ⟨le_max_left _ _, max_le (by norm_num) (min_le_left _ _)⟩

lemma calcSR_interval_ge_one (st : SpacedRepState) (b : Bool) (rt : ℚ)
    (h1 : 1 ≤ st.interval) (hint : ∃ n : ℤ, st.interval = (n : ℚ))
    (hef : 1.3 ≤ st.easeFactor) :
    1 ≤ (calculateSpacedRepetition st b rt).interval ∧
      ∃ m : ℤ, (calculateSpacedRepetition st b rt).interval = (m : ℚ) := by
  cases b
  case false =>
    have hcalc : (calculateSpacedRepetition st false rt).interval = 1 := rfl
    rw [hcalc]
    exact ⟨le_refl 1, 1, by norm_num⟩
  case true =>
    have hcalc : (calculateSpacedRepetition st true rt).interval =
        (if st.interval = 1 then (6 : ℚ)
         else ((round (st.interval * st.easeFactor) : ℤ) : ℚ)) := rfl
    rw [hcalc]
    by_cases hi : st.interval = 1
    · rw [if_pos hi]
      exact ⟨by norm_num, 6, by norm_num⟩
    · rw [if_neg hi]
      obtain ⟨n, hn⟩ := hint
      have hn1 : (1 : ℤ) ≤ n := by
        rw [hn] at h1
        exact_mod_cast h1
      have hnne : n ≠ 1 := by
        intro hc
        apply hi
        rw [hn, hc]
        norm_num
      have h2 : (2 : ℚ) ≤ st.interval := by
        rw [hn]
        exact_mod_cast (by omega : (2 : ℤ) ≤ n)
      have hprod : (2.6 : ℚ) ≤ st.interval * st.easeFactor := by
        calc (2.6 : ℚ) = 2 * 1.3 := by norm_num
        _ ≤ st.interval * st.easeFactor :=
            mul_le_mul h2 hef (by norm_num) (le_trans (by norm_num) h2)
      have hround : (1 : ℤ) ≤ round (st.interval * st.easeFactor) := by
        rw [round_eq, Int.le_floor]
        push_cast
        linarith
      constructor
      · exact_mod_cast hround
      · exact ⟨round (st.interval * st.easeFactor), rfl⟩

lemma updateCardProgress_easeFactor (st : CardState) (b : Bool)
    (rt now : ℚ) :
    (updateCardProgress st b rt now).easeFactor =
      (calculateSpacedRepetition ⟨st.easeFactor, st.interval⟩ b
        rt).easeFactor := by
  cases b
  · rfl
  · simp only [updateCardProgress]
    split
    next => split <;> rfl
    next h => exact absurd trivial h

lemma updateCardProgress_interval (st : CardState) (b : Bool)
    (rt now : ℚ) :
    (updateCardProgress st b rt now).interval =
      (calculateSpacedRepetition ⟨st.easeFactor, st.interval⟩ b
        rt).interval := by
  cases b
  · rfl
  · simp only [updateCardProgress]
    split
    next => split <;> rfl
    next h => exact absurd trivial h

lemma updateCardProgress_difficulty_true (st : CardState) (rt now : ℚ) :
    (updateCardProgress st true rt now).difficulty =
      if 3 ≤ st.consecutiveCorrect + 1 then max 0 (st.difficulty - 0.1)
      else st.difficulty := by
  simp only [updateCardProgress]
  split
  next => split <;> rfl
  next h => exact absurd trivial h

lemma updateCardProgress_difficulty_false (st : CardState) (rt now : ℚ) :
    (updateCardProgress st false rt now).difficulty =
      min 1 (st.difficulty + 0.2) := rfl

lemma updateCardProgress_counters_true (st : CardState) (rt now : ℚ) :
    (updateCardProgress st true rt now).consecutiveCorrect =
        st.consecutiveCorrect + 1 ∧
      (updateCardProgress st true rt now).consecutiveIncorrect = 0 ∧
      (updateCardProgress st true rt now).timesReviewed =
        st.timesReviewed + 1 ∧
      (updateCardProgress st true rt now).timesCorrect =
        st.timesCorrect + 1 := by
  refine ⟨?_, ?_, ?_, ?_⟩ <;>
    simp only [updateCardProgress] <;>
    (first
      | (split
         next => split <;> rfl
         next h => exact absurd trivial h))

lemma updateCardProgress_counters_false (st : CardState) (rt now : ℚ) :
    (updateCardProgress st false rt now).consecutiveCorrect = 0 ∧
      (updateCardProgress st false rt now).consecutiveIncorrect =
        st.consecutiveIncorrect + 1 ∧
      (updateCardProgress st false rt now).timesReviewed =
        st.timesReviewed + 1 ∧
      (updateCardProgress st false rt now).timesCorrect =
        st.timesCorrect := ⟨rfl, rfl, rfl, rfl⟩

lemma updateCardProgress_inv (st : CardState) (b : Bool) (rt now : ℚ)
    (h : CardStateInv st) :
    CardStateInv (updateCardProgress st b rt now) := by
  obtain ⟨⟨hef1, hef2, hint1, hd0, hd1, hcc, hci⟩, hint⟩ := h
  have hefb := calcSR_easeFactor_bounds ⟨st.easeFactor, st.interval⟩ b rt
  have hiv := calcSR_interval_ge_one ⟨st.easeFactor, st.interval⟩ b rt
    hint1 hint hef1
  refine ⟨⟨?_, ?_, ?_, ?_, ?_, ?_, ?_⟩, ?_⟩
  · rw [updateCardProgress_easeFactor]
    exact hefb.1
  · rw [updateCardProgress_easeFactor]
    exact hefb.2
  · rw [updateCardProgress_interval]
    exact hiv.1
  · cases b
    · rw [updateCardProgress_difficulty_false]
      have : (0 : ℚ) ≤ st.difficulty + 0.2 := by linarith
      exact le_min (by norm_num) this
    · rw [updateCardProgress_difficulty_true]
      split
      · exact le_max_left _ _
      · exact hd0
  · cases b
    · rw [updateCardProgress_difficulty_false]
      exact min_le_left _ _
    · rw [updateCardProgress_difficulty_true]
      split
      · exact max_le (by norm_num) (by linarith)
      · exact hd1
  · cases b
    · rw [(updateCardProgress_counters_false st rt now).1]
      intro hc
      exact absurd hc (by norm_num)
    · intro _
      exact (updateCardProgress_counters_true st rt now).2.1
  · cases b
    · intro _
      exact (updateCardProgress_counters_false st rt now).1
    · rw [(updateCardProgress_counters_true st rt now).2.1]
      intro hc
      exact absurd hc (by norm_num)
  · rw [updateCardProgress_interval]
    exact hiv.2

lemma runReviews_foldl_inv :
    ∀ (l : List (Bool × ℚ × ℚ)) (st : CardState), CardStateInv st →
      CardStateInv
        (l.foldl (fun s r => updateCardProgress s r.1 r.2.1 r.2.2) st)
  | [], st, h => h
  | r :: t, st, h => by
    rw [List.foldl_cons]
    exact runReviews_foldl_inv t _ (updateCardProgress_inv st r.1 r.2.1
      r.2.2 h)

lemma defaultCardState_inv : CardStateInv defaultCardState := by
  refine ⟨⟨?_, ?_, ?_, ?_, ?_, ?_, ?_⟩, 1, ?_⟩ <;>
    simp [defaultCardState, ValidCardState] <;> norm_num

/-- C5: CardScheduleState validity is preserved by every review. After any
finite sequence of updateCardProgress calls from the default card state the
ease factor stays in [1.3, 2.5], the interval stays at least 1, the
difficulty stays in [0, 1], and a positive consecutive-correct counter forces
a zero consecutive-incorrect counter and vice versa; moreover a single
updateCardProgress call never decreases timesReviewed or timesCorrect. -/
theorem cardScheduleState_invariant :
    (∀ reviews : List (Bool × ℚ × ℚ), ValidCardState (runReviews reviews)) ∧
    (∀ (st : CardState) (b : Bool) (rt now : ℚ),
      st.timesReviewed ≤ (updateCardProgress st b rt now).timesReviewed ∧
      st.timesCorrect ≤ (updateCardProgress st b rt now).timesCorrect) := by
  constructor
  · intro reviews
    exact (runReviews_foldl_inv reviews defaultCardState
      defaultCardState_inv).1
  · intro st b rt now
    cases b
    · rw [(updateCardProgress_counters_false st rt now).2.2.1,
        (updateCardProgress_counters_false st rt now).2.2.2]
      exact ⟨Nat.le_succ _, le_refl _⟩
    · rw [(updateCardProgress_counters_true st rt now).2.2.1,
        (updateCardProgress_counters_true st rt now).2.2.2]
      exact ⟨Nat.le_succ _, Nat.le_succ _⟩

/-- C6: session statistics aggregation. recordSession increments
totalSessions, keeps the maximum bestScore, recomputes the average with the
incremental-mean formula under Math.round, accumulates totalTimeSpent and
stamps lastAttempt with the current time; in particular totalSessions 2 with
average 80 and a new score of 100 yields totalSessions 3 and average
round((80*2+100)/3) = 87. -/
theorem recordSession_spec :
    (∀ (stats : UserStudySetStats) (score totalTime now : ℚ),
      (recordSession stats score totalTime now).totalSessions =
        stats.totalSessions + 1 ∧
      (recordSession stats score totalTime now).bestScore =
        max stats.bestScore score ∧
      (recordSession stats score totalTime now).averageScore =
        ((round ((stats.averageScore * (stats.totalSessions : ℚ) + score) /
          ((stats.totalSessions : ℚ) + 1)) : ℤ) : ℚ) ∧
      (recordSession stats score totalTime now).totalTimeSpent =
        stats.totalTimeSpent + totalTime ∧
      (recordSession stats score totalTime now).lastAttempt = some now) ∧
    ((recordSession ⟨2, none, 100, 80, 0, none⟩ 100 0 0).totalSessions = 3 ∧
      (recordSession ⟨2, none, 100, 80, 0, none⟩ 100 0 0).averageScore =
        87) := by
  constructor
  · intro stats score totalTime now
    refine ⟨rfl, rfl, ?_, rfl, rfl⟩
    simp only [recordSession]
    push_cast
    rfl
  · refine ⟨rfl, ?_⟩
    simp only [recordSession]
    norm_num [round_eq]

/-- C10: a limit of 0 is tested for truthiness by getCardsForReview, so it
returns the full list of due cards rather than an empty list; only a
positive limit truncates the result. -/
theorem getCardsForReview_zeroLimit (ps : List (CardId × CardState))
    (now : ℚ) :
    getCardsForReview ps now (some 0) = getCardsForReview ps now none ∧
    (∀ n : ℕ, getCardsForReview ps now (some (n + 1)) =
      (getCardsForReview ps now none).take (n + 1)) :=
  ⟨rfl, fun n => rfl⟩

lemma reviewLE_iff (a b : CardId × CardState) :
    reviewLE a b = true ↔ reviewOrd a b := by
  unfold reviewLE reviewOrd
  by_cases h : a.2.difficulty = b.2.difficulty
  · simp [h]
  · simp [h]

lemma reviewLE_total (a b : CardId × CardState) :
    (reviewLE a b || reviewLE b a) = true := by
  unfold reviewLE
  by_cases h : a.2.difficulty = b.2.difficulty
  · rw [if_pos h, if_pos h.symm]
    rcases le_total (lastReviewedKey a.2) (lastReviewedKey b.2) with
      hle | hle <;> simp [hle]
  · rw [if_neg h, if_neg (Ne.symm h)]
    rcases lt_or_gt_of_ne h with hlt | hlt <;> simp [hlt]

lemma reviewLE_trans (a b c : CardId × CardState) :
    reviewLE a b = true → reviewLE b c = true → reviewLE a c = true := by
  unfold reviewLE
  by_cases hab : a.2.difficulty = b.2.difficulty <;>
    by_cases hbc : b.2.difficulty = c.2.difficulty
  · rw [if_pos hab, if_pos hbc, if_pos (hab.trans hbc)]
    simp only [decide_eq_true_eq]
    exact le_trans
  · rw [if_pos hab, if_neg hbc, if_neg (hab ▸ hbc)]
    simp only [decide_eq_true_eq]
    intro _ h2
    exact hab ▸ h2
  · rw [if_neg hab, if_pos hbc, if_neg (hbc ▸ hab)]
    simp only [decide_eq_true_eq]
    intro h1 _
    exact hbc ▸ h1
  · rw [if_neg hab, if_neg hbc]
    simp only [decide_eq_true_eq]
    intro h1 h2
    rw [if_neg (ne_of_gt (lt_trans h2 h1))]
    simp only [decide_eq_true_eq]
    exact lt_trans h2 h1

lemma mergeSort_reviewSorted (l : List (CardId × CardState)) :
    (l.mergeSort reviewLE).Sorted reviewOrd := by
  have h := List.sorted_mergeSort reviewLE_trans reviewLE_total l
  exact h.imp fun hab => (reviewLE_iff _ _).mp hab

/-- C7: review queue selection and order. getCardsForReview (without limit)
returns exactly the ids of the entries whose nextReview is null or at most
now, as the projection of a sorted permutation of the due entries; the sort
order is descending difficulty, ties broken by ascending lastReviewed with a
null lastReviewed keyed as the epoch and therefore placed first. -/
theorem getCardsForReview_spec (ps : List (CardId × CardState)) (now : ℚ) :
    (getCardsForReview ps now none).Perm
      ((dueEntries ps now).map Prod.fst) ∧
    (∀ e : CardId × CardState, e ∈ dueEntries ps now ↔
      e ∈ ps ∧ (e.2.nextReview = none ∨
        ∃ t : ℚ, e.2.nextReview = some t ∧ t ≤ now)) ∧
    ((dueEntries ps now).mergeSort reviewLE).Sorted reviewOrd ∧
    getCardsForReview ps now none =
      ((dueEntries ps now).mergeSort reviewLE).map Prod.fst := by
  refine ⟨?_, ?_, mergeSort_reviewSorted _, rfl⟩
  · exact List.Perm.map Prod.fst
      (List.mergeSort_perm (dueEntries ps now) reviewLE)
  · intro e
    unfold dueEntries
    rw [List.mem_filter]
    rcases hnr : e.2.nextReview with _ | t <;> simp [isDue, hnr]

/-- C3: evidence for the migration failure path. The legacy-format id
"m2abc123xyz45pq" (Date.now().toString(36) plus a random base-36 suffix) is
detected by the hasOldIds heuristic, yet when reading the study-set CSV
fails (csv = none) the handler keeps both legacy collections and applies the
session delta to them instead of clearing them: migrateFlashcardIds returns
empty collections with migrated = false, whose comment says they are
returned to avoid corrupted data, but the caller only uses them when
migrated is true. With a readable CSV both collections are cleared before
the delta is applied, as the claim states. -/
theorem legacyMigration_failure_keeps_old :
    isLegacyId "m2abc123xyz45pq" = true ∧
    processFlashcardUpdates (JSVal.arr ["m2abc123xyz45pq"]) (JSVal.arr [])
      none ⟨[], [], [], []⟩ = Except.ok (["m2abc123xyz45pq"], []) ∧
    processFlashcardUpdates (JSVal.arr ["m2abc123xyz45pq"]) (JSVal.arr [])
      (some "q1(;)a1\nq2(;)a2") ⟨[], [], [], []⟩ = Except.ok ([], []) :=
  ⟨by decide, rfl, rfl⟩

/-- C8 counterexample: a persisted knownCards holding the number 5 (truthy,
not a list) is not coerced to an empty collection; the spread in the
hasOldIds check throws, so the request fails with an internal error. -/
theorem processFlashcardUpdates_nonList_counterexample :
    jsTruthy (JSVal.num 5) = true ∧
    processFlashcardUpdates (JSVal.num 5) (JSVal.arr []) none
      ⟨[], [], [], []⟩ = Except.error () :=
  ⟨by decide, rfl⟩

lemma readStoredCards_falsy (v : JSVal) (h : jsTruthy v = false) :
    readStoredCards v = JSVal.arr [] := by
  simp [readStoredCards, h]

lemma processFlashcardUpdates_arr (k u : List CardId) (csv : Option String)
    (upd : ProgressDelta) :
    processFlashcardUpdates (JSVal.arr k) (JSVal.arr u) csv upd =
      (if (k ++ u).any isLegacyId then
        (if (migrateFlashcardIds csv k u).migrated then
          Except.ok (updateSetsForAnswer
            (migrateFlashcardIds csv k u).knownCards
            (migrateFlashcardIds csv k u).unknownCards upd)
        else Except.ok (updateSetsForAnswer k u upd))
      else Except.ok (updateSetsForAnswer k u upd)) := rfl

lemma processFlashcardUpdates_arr_ok (k u : List CardId)
    (csv : Option String) (upd : ProgressDelta) :
    ∃ r, processFlashcardUpdates (JSVal.arr k) (JSVal.arr u) csv upd =
      Except.ok r := by
  rw [processFlashcardUpdates_arr]
  split
  · split
    · exact ⟨_, rfl⟩
    · exact ⟨_, rfl⟩
  · exact ⟨_, rfl⟩

lemma processFlashcardUpdates_falsy_fst (v w : JSVal) (csv : Option String)
    (upd : ProgressDelta) (h : jsTruthy v = false) :
    processFlashcardUpdates v w csv upd =
      processFlashcardUpdates (JSVal.arr []) w csv upd := by
  simp only [processFlashcardUpdates]
  rw [readStoredCards_falsy v h]
  rfl

lemma processFlashcardUpdates_falsy_snd (v w : JSVal) (csv : Option String)
    (upd : ProgressDelta) (h : jsTruthy w = false) :
    processFlashcardUpdates v w csv upd =
      processFlashcardUpdates v (JSVal.arr []) csv upd := by
  simp only [processFlashcardUpdates]
  rw [readStoredCards_falsy w h]
  rfl

lemma processFlashcardUpdates_str_fst (s : String) (w : JSVal)
    (csv : Option String) (upd : ProgressDelta) (h : s ≠ "") :
    processFlashcardUpdates (JSVal.str s) w csv upd =
      processFlashcardUpdates (JSVal.arr (s.toList.map Char.toString)) w csv
        upd := by
  have hs : readStoredCards (JSVal.str s) = JSVal.str s := by
    simp [readStoredCards, jsTruthy, h]
  simp only [processFlashcardUpdates]
  rw [hs]
  rfl

lemma processFlashcardUpdates_str_snd (v : JSVal) (s : String)
    (csv : Option String) (upd : ProgressDelta) (h : s ≠ "") :
    processFlashcardUpdates v (JSVal.str s) csv upd =
      processFlashcardUpdates v (JSVal.arr (s.toList.map Char.toString)) csv
        upd := by
  have hs : readStoredCards (JSVal.str s) = JSVal.str s := by
    simp [readStoredCards, jsTruthy, h]
  simp only [processFlashcardUpdates]
  rw [hs]
  rfl

/-- C8 amended: only a falsy persisted value (null, 0, the empty string) is
coerced to an empty collection by the (value || []) fallback — in either
field, with the other field a normal list — and such a request succeeds; a
truthy non-list value is not coerced: a nonzero number or a plain object, in
either field, makes the handler throw so the request fails with an internal
error, and a nonempty string is treated as the collection of its
characters. -/
theorem processFlashcardUpdates_amended :
    (∀ (v : JSVal) (u : List CardId) (csv : Option String)
        (upd : ProgressDelta), jsTruthy v = false →
      processFlashcardUpdates v (JSVal.arr u) csv upd =
        processFlashcardUpdates (JSVal.arr []) (JSVal.arr u) csv upd ∧
      ∃ r, processFlashcardUpdates v (JSVal.arr u) csv upd =
        Except.ok r) ∧
    (∀ (k : List CardId) (w : JSVal) (csv : Option String)
        (upd : ProgressDelta), jsTruthy w = false →
      processFlashcardUpdates (JSVal.arr k) w csv upd =
        processFlashcardUpdates (JSVal.arr k) (JSVal.arr []) csv upd ∧
      ∃ r, processFlashcardUpdates (JSVal.arr k) w csv upd =
        Except.ok r) ∧
    (∀ (v w : JSVal) (csv : Option String) (upd : ProgressDelta),
      jsTruthy v = false → jsTruthy w = false →
      processFlashcardUpdates v w csv upd =
        Except.ok (updateSetsForAnswer [] [] upd)) ∧
    (∀ (n : ℚ) (w : JSVal) (csv : Option String) (upd : ProgressDelta),
      n ≠ 0 → processFlashcardUpdates (JSVal.num n) w csv upd =
        Except.error ()) ∧
    (∀ (k : List CardId) (n : ℚ) (csv : Option String)
        (upd : ProgressDelta), n ≠ 0 →
      processFlashcardUpdates (JSVal.arr k) (JSVal.num n) csv upd =
        Except.error ()) ∧
    (∀ (w : JSVal) (csv : Option String) (upd : ProgressDelta),
      processFlashcardUpdates JSVal.obj w csv upd = Except.error ()) ∧
    (∀ (k : List CardId) (csv : Option String) (upd : ProgressDelta),
      processFlashcardUpdates (JSVal.arr k) JSVal.obj csv upd =
        Except.error ()) ∧
    (∀ (s : String) (u : List CardId) (csv : Option String)
        (upd : ProgressDelta), s ≠ "" →
      processFlashcardUpdates (JSVal.str s) (JSVal.arr u) csv upd =
        processFlashcardUpdates (JSVal.arr (s.toList.map Char.toString))
          (JSVal.arr u) csv upd) ∧
    (∀ (k : List CardId) (s : String) (csv : Option String)
        (upd : ProgressDelta), s ≠ "" →
      processFlashcardUpdates (JSVal.arr k) (JSVal.str s) csv upd =
        processFlashcardUpdates (JSVal.arr k)
          (JSVal.arr (s.toList.map Char.toString)) csv upd) := by
  refine ⟨?_, ?_, ?_, ?_, ?_, ?_, ?_, ?_, ?_⟩
  · intro v u csv upd hv
    have he := processFlashcardUpdates_falsy_fst v (JSVal.arr u) csv upd hv
    refine ⟨he, ?_⟩
    rw [he]
    exact processFlashcardUpdates_arr_ok [] u csv upd
  · intro k w csv upd hw
    have he := processFlashcardUpdates_falsy_snd (JSVal.arr k) w csv upd hw
    refine ⟨he, ?_⟩
    rw [he]
    exact processFlashcardUpdates_arr_ok k [] csv upd
  · intro v w csv upd hv hw
    rw [processFlashcardUpdates_falsy_fst v w csv upd hv,
      processFlashcardUpdates_falsy_snd (JSVal.arr []) w csv upd hw]
    rfl
  · intro n w csv upd hn
    have hv' : readStoredCards (JSVal.num n) = JSVal.num n := by
      simp [readStoredCards, jsTruthy, hn]
    simp only [processFlashcardUpdates]
    rw [hv']
    cases hsw : spreadIds (readStoredCards w) <;> rfl
  · intro k n csv upd hn
    have hw' : readStoredCards (JSVal.num n) = JSVal.num n := by
      simp [readStoredCards, jsTruthy, hn]
    simp only [processFlashcardUpdates]
    rw [hw']
    rfl
  · intro w csv upd
    simp only [processFlashcardUpdates]
    cases hsw : spreadIds (readStoredCards w) <;> rfl
  · intro k csv upd
    rfl
  · intro s u csv upd hs
    exact processFlashcardUpdates_str_fst s (JSVal.arr u) csv upd hs
  · intro k s csv upd hs
    exact processFlashcardUpdates_str_snd (JSVal.arr k) s csv upd hs

theorem processFlashcardUpdates_amended_witness :
    jsTruthy JSVal.null = false ∧
    jsTruthy (JSVal.num 0) = false ∧
    (5 : ℚ) ≠ 0 ∧
    "abc" ≠ "" ∧
    (processFlashcardUpdates JSVal.null (JSVal.arr ["a"]) none
        ⟨[], [], [], []⟩ =
      processFlashcardUpdates (JSVal.arr []) (JSVal.arr ["a"]) none
        ⟨[], [], [], []⟩ ∧
      ∃ r, processFlashcardUpdates JSVal.null (JSVal.arr ["a"]) none
        ⟨[], [], [], []⟩ = Except.ok r) ∧
    (processFlashcardUpdates (JSVal.arr ["a"]) (JSVal.num 0) none
        ⟨[], [], [], []⟩ =
      processFlashcardUpdates (JSVal.arr ["a"]) (JSVal.arr []) none
        ⟨[], [], [], []⟩ ∧
      ∃ r, processFlashcardUpdates (JSVal.arr ["a"]) (JSVal.num 0) none
        ⟨[], [], [], []⟩ = Except.ok r) ∧
    (processFlashcardUpdates JSVal.null (JSVal.num 0) none
      ⟨[], [], [], []⟩ =
        Except.ok (updateSetsForAnswer [] [] ⟨[], [], [], []⟩)) ∧
    (processFlashcardUpdates (JSVal.num 5) JSVal.obj none ⟨[], [], [], []⟩ =
      Except.error ()) ∧
    (processFlashcardUpdates (JSVal.arr ["a"]) (JSVal.num 5) none
      ⟨[], [], [], []⟩ = Except.error ()) ∧
    (processFlashcardUpdates JSVal.obj (JSVal.arr []) none
      ⟨[], [], [], []⟩ = Except.error ()) ∧
    (processFlashcardUpdates (JSVal.arr ["a"]) JSVal.obj none
      ⟨[], [], [], []⟩ = Except.error ()) ∧
    (processFlashcardUpdates (JSVal.str "abc") (JSVal.arr []) none
        ⟨[], [], [], []⟩ =
      processFlashcardUpdates
        (JSVal.arr ("abc".toList.map Char.toString)) (JSVal.arr []) none
        ⟨[], [], [], []⟩) ∧
    (processFlashcardUpdates (JSVal.arr ["x"]) (JSVal.str "abc") none
        ⟨[], [], [], []⟩ =
      processFlashcardUpdates (JSVal.arr ["x"])
        (JSVal.arr ("abc".toList.map Char.toString)) none
        ⟨[], [], [], []⟩) :=
  ⟨rfl, by decide, by decide, by decide,
    processFlashcardUpdates_amended.1 JSVal.null ["a"] none
      ⟨[], [], [], []⟩ rfl,
    processFlashcardUpdates_amended.2.1 ["a"] (JSVal.num 0) none
      ⟨[], [], [], []⟩ (by decide),
    processFlashcardUpdates_amended.2.2.1 JSVal.null (JSVal.num 0) none
      ⟨[], [], [], []⟩ rfl (by decide),
    processFlashcardUpdates_amended.2.2.2.1 5 JSVal.obj none
      ⟨[], [], [], []⟩ (by decide),
    processFlashcardUpdates_amended.2.2.2.2.1 ["a"] 5 none
      ⟨[], [], [], []⟩ (by decide),
    processFlashcardUpdates_amended.2.2.2.2.2.1 (JSVal.arr []) none
      ⟨[], [], [], []⟩,
    processFlashcardUpdates_amended.2.2.2.2.2.2.1 ["a"] none
      ⟨[], [], [], []⟩,
    processFlashcardUpdates_amended.2.2.2.2.2.2.2.1 "abc" [] none
      ⟨[], [], [], []⟩ (by decide),
    processFlashcardUpdates_amended.2.2.2.2.2.2.2.2 ["x"] "abc" none
      ⟨[], [], [], []⟩ (by decide)⟩
